import Mathlib

/-!
Shallow embedding of `src/main.py` (Karume-lab/tele-group-py).

The program drives a Telegram client; we model the platform as an oracle
environment (`Env`) answering the two kinds of requests the engine issues:
identity resolution (`client.get_entity`, numbered by a resolve counter) and
add/invite requests (`InviteToChannelRequest` / `AddChatUserRequest`, numbered
by an add counter).  The control flow of `add_members_to_group`
(src/main.py lines 104-238) and `batch_add_members` (lines 290-406) is
translated step for step; sleeps (`asyncio.sleep`) are accumulated into a
`slept` counter, issued add/invite calls into a `calls` log, and the
`break` on `PeerFloodError` / `ChatAdminRequiredError` sets an `aborted` flag.
Loops that may re-process an element (the flood-wait retry re-inserts the
current phone at the current index, so Python's index-based iterator yields it
again) are given explicit fuel; a run that runs out of fuel returns `none`.
-/

namespace TeleGroupPy

/-- One entry of `failed_adds`: the Python dict with keys "phone" and "error". -/
structure Failure where
  phone : String
  error : String
deriving DecidableEq, Repr

/-- Result of one `client.get_entity(phone_number)` request (src/main.py 128-143):
it returns a user, raises (caught as "User not found: ..."), or returns a
non-`User` entity. -/
inductive ResolveResult where
  | ok
  | notFound (msg : String)
  | notUser
deriving DecidableEq, Repr

/-- Result of one add/invite request, classified exactly by the `except` clauses
of src/main.py lines 201-236. -/
inductive AddResult where
  | ok
  | flood (seconds : Nat)
  | already
  | privacy
  | peerFlood
  | adminRequired
  | generic (msg : String)
deriving DecidableEq, Repr

/-- The runtime type of `group_entity`: `telethon` `Channel`, `Chat`, or anything
else (the `else` branch at src/main.py line 188). -/
inductive GroupKind where
  | channel
  | chat
  | other
deriving DecidableEq, Repr

/-- The platform oracle: the result of the n-th resolve request and the n-th
add/invite request of the whole process. -/
structure Env where
  resolve : Nat → ResolveResult
  add : Nat → AddResult

/-- Observable state threaded through the engine: the two report lists
(`successful_adds`, `failed_adds`), the log of issued add/invite calls, total
seconds slept, the two request counters, and whether a fatal `break` occurred. -/
structure RunState where
  succ : List String
  failed : List Failure
  calls : List String
  slept : Nat
  rc : Nat
  ac : Nat
  aborted : Bool
deriving DecidableEq, Repr

/-- The `for i, phone_number in enumerate(phone_numbers)` loop of
`add_members_to_group` (src/main.py lines 122-237).  Python's loop iterates by
index over the (mutated) list, so the state is the current list and index `i`.
On `FloodWaitError` the code sleeps `e.seconds` and does
`phone_numbers.insert(i, phone_number)`; the iterator then yields index `i+1`,
which again holds the same phone (src/main.py lines 201-206).  `fuel` bounds the
number of iterations; exhausting it before the loop ends yields `none`. -/
def addAux (env : Env) (kind : GroupKind) (delay : Nat) :
    Nat → List String → Nat → RunState → Option RunState
  | 0, phones, i, st =>
      if i < phones.length then none else some st
  | fuel + 1, phones, i, st =>
      if h : i < phones.length then
        let phone := phones.get ⟨i, h⟩
        match env.resolve st.rc with
        | .notFound msg =>
            addAux env kind delay fuel phones (i + 1)
              { st with failed := st.failed ++ [⟨phone, "User not found: " ++ msg⟩],
                        rc := st.rc + 1 }
        | .notUser =>
            addAux env kind delay fuel phones (i + 1)
              { st with failed := st.failed ++ [⟨phone, "Entity is not a user"⟩],
                        rc := st.rc + 1 }
        | .ok =>
            match kind with
            | .other =>
                addAux env kind delay fuel phones (i + 1)
                  { st with failed := st.failed ++ [⟨phone, "Unsupported group type"⟩],
                            rc := st.rc + 1 }
            | .channel | .chat =>
                match env.add st.ac with
                | .ok =>
                    addAux env kind delay fuel phones (i + 1)
                      { st with succ := st.succ ++ [phone],
                                calls := st.calls ++ [phone],
                                slept := st.slept + delay,
                                rc := st.rc + 1, ac := st.ac + 1 }
                | .flood w =>
                    addAux env kind delay fuel (phones.insertIdx i phone) (i + 1)
                      { st with calls := st.calls ++ [phone],
                                slept := st.slept + w,
                                rc := st.rc + 1, ac := st.ac + 1 }
                | .already =>
                    addAux env kind delay fuel phones (i + 1)
                      { st with succ := st.succ ++ [phone],
                                calls := st.calls ++ [phone],
                                rc := st.rc + 1, ac := st.ac + 1 }
                | .privacy =>
                    addAux env kind delay fuel phones (i + 1)
                      { st with failed := st.failed ++ [⟨phone, "Privacy restrictions"⟩],
                                calls := st.calls ++ [phone],
                                rc := st.rc + 1, ac := st.ac + 1 }
                | .peerFlood =>
                    some { st with
                            failed := st.failed ++ [⟨phone, "Peer flood - too many requests"⟩],
                            calls := st.calls ++ [phone],
                            rc := st.rc + 1, ac := st.ac + 1,
                            aborted := true }
                | .adminRequired =>
                    some { st with
                            failed := st.failed ++ [⟨phone, "Admin rights required"⟩],
                            calls := st.calls ++ [phone],
                            rc := st.rc + 1, ac := st.ac + 1,
                            aborted := true }
                | .generic msg =>
                    addAux env kind delay fuel phones (i + 1)
                      { st with failed := st.failed ++ [⟨phone, msg⟩],
                                calls := st.calls ++ [phone],
                                rc := st.rc + 1, ac := st.ac + 1 }
      else some st

/-- `TelegramGroupManager.add_members_to_group` (src/main.py lines 104-238).
`group` is `None` or an entity of some runtime kind; a `None` group returns the
empty success list and one "Group not found" failure per phone without issuing
any request (lines 113-117).  `rc`/`ac` are the oracle counters at entry. -/
def add_members_to_group (env : Env) (group : Option GroupKind)
    (phones : List String) (delay : Nat) (rc ac : Nat) (fuel : Nat) :
    Option RunState :=
  match group with
  | none =>
      some { succ := [],
             failed := phones.map fun p => ⟨p, "Group not found"⟩,
             calls := [], slept := 0, rc := rc, ac := ac, aborted := false }
  | some kind =>
      addAux env kind delay fuel phones 0
        { succ := [], failed := [], calls := [], slept := 0,
          rc := rc, ac := ac, aborted := false }

/-- The slices `PHONE_NUMBERS[i : i + CHUNK_SIZE]` for
`i in range(0, len(PHONE_NUMBERS), CHUNK_SIZE)` (src/main.py lines 361-362).
A step of `0` raises `ValueError` in Python; it is modelled as no chunks and is
outside every claim (all claims take `C ≥ 1`). -/
def pyChunks : Nat → List String → List (List String)
  | _, [] => []
  | 0, _ :: _ => []
  | c + 1, x :: xs =>
      (x :: xs).take (c + 1) :: pyChunks (c + 1) ((x :: xs).drop (c + 1))
termination_by _ l => l.length
decreasing_by simp; omega

/-- The chunk loop of `batch_add_members` (src/main.py lines 361-383): each chunk
is fed to `add_members_to_group`, its results are appended to the accumulated
lists, and `CHUNK_DELAY` is slept when a further chunk remains (the Python
condition `i + CHUNK_SIZE < len(PHONE_NUMBERS)` holds exactly when the list of
remaining slices is nonempty).  Nothing inspects the chunk results: the loop
continues even after a chunk aborted on a fatal error. -/
def batchAux (env : Env) (group : Option GroupKind)
    (reqDelay chunkDelay : Nat) (fuel : Nat) :
    List (List String) → RunState → Option RunState
  | [], st => some st
  | chunk :: rest, st =>
      match add_members_to_group env group chunk reqDelay st.rc st.ac fuel with
      | none => none
      | some r =>
          batchAux env group reqDelay chunkDelay fuel rest
            { succ := st.succ ++ r.succ,
              failed := st.failed ++ r.failed,
              calls := st.calls ++ r.calls,
              slept := st.slept + r.slept + (if rest = [] then 0 else chunkDelay),
              rc := r.rc, ac := r.ac,
              aborted := st.aborted || r.aborted }

/-- `batch_add_members` (src/main.py lines 290-406), restricted to its engine
part: chunk the phone list and run the chunks sequentially. -/
def batch_add_members (env : Env) (group : Option GroupKind)
    (phones : List String) (chunkSize reqDelay chunkDelay : Nat) (fuel : Nat) :
    Option RunState :=
  batchAux env group reqDelay chunkDelay fuel (pyChunks chunkSize phones)
    { succ := [], failed := [], calls := [], slept := 0,
      rc := 0, ac := 0, aborted := false }

/-- The per-file line loop of `read_phone_numbers_from_directory`
(src/main.py lines 276-281): strip each line, skip empty lines and lines
starting with "#", append the stripped line. -/
def readPhoneLines (lines : List String) : List String :=
  lines.foldl
    (fun acc rawLine =>
      let line := rawLine.trim
      if line ≠ "" ∧ ¬ line.startsWith "#" then acc ++ [line] else acc)
    []

/-- `read_phone_numbers_from_directory` (src/main.py lines 246-287) over the
line contents of the `.txt` files it found, in directory-listing order. -/
def read_phone_numbers_from_directory (files : List (List String)) : List String :=
  files.foldl (fun acc f => acc ++ readPhoneLines f) []

/-- A `telethon` dialog as observed by `get_user_groups`. -/
structure Dialog where
  id : Int
  name : String
  username : Option String
  isGroup : Bool
  isChannel : Bool
  participantsCount : Option Nat
deriving DecidableEq, Repr

/-- The dict built at src/main.py lines 50-59 (the opaque `entity` field is the
dialog itself in this model; `participants_count` defaults to `"N/A"`, modelled
as `none`). -/
structure GroupInfo where
  id : Int
  title : String
  username : Option String
  gtype : String
  participantsCount : Option Nat
deriving DecidableEq, Repr

/-- The dict built at src/main.py lines 50-59 for one dialog. -/
def dialogInfo (d : Dialog) : GroupInfo :=
  ⟨d.id, d.name, d.username,
   if d.isChannel then "Channel" else "Group",
   d.participantsCount⟩

/-- `TelegramGroupManager.get_user_groups` (src/main.py lines 43-62): collect
every dialog that is a group or channel, in iteration order.  No grouping or
deduplication of titles is performed. -/
def get_user_groups (dialogs : List Dialog) : List GroupInfo :=
  dialogs.foldl
    (fun groups d =>
      if d.isGroup || d.isChannel then groups ++ [dialogInfo d] else groups)
    []


/-! ## Concrete environments and inputs used in the claim instances -/

/-- A platform that answers every request successfully. -/
def envAllOk : Env := ⟨fun _ => .ok, fun _ => .ok⟩

/-- A platform whose very first add request raises `PeerFloodError` and which
succeeds afterwards. -/
def envPeerFloodFirst : Env :=
  ⟨fun _ => .ok, fun n => if n = 0 then .peerFlood else .ok⟩

/-- A platform that answers every add request with
`UserAlreadyParticipantError`. -/
def envAlready : Env := ⟨fun _ => .ok, fun _ => .already⟩

/-- A platform whose seventh add request (index 6) is rate-limited for 10
seconds and which succeeds otherwise (the scenario of the spec). -/
def envScenario : Env :=
  ⟨fun _ => .ok, fun n => if n = 6 then .flood 10 else .ok⟩

/-- A platform whose first add request is rate-limited for 4 seconds and which
succeeds afterwards. -/
def envFloodOnce : Env :=
  ⟨fun _ => .ok, fun n => if n = 0 then .flood 4 else .ok⟩

/-- A platform that rate-limits every add request. -/
def envFloodForever : Env := ⟨fun _ => .ok, fun _ => .flood 1⟩

/-- The 12-candidate list of the spec scenario. -/
def phones12 : List String :=
  ["p0", "p1", "p2", "p3", "p4", "p5", "p6", "p7", "p8", "p9", "p10", "p11"]

/-- The engine call exhausts every fuel bound, i.e. the Python loop never
terminates. -/
def neverReturns (env : Env) (group : Option GroupKind) (phones : List String)
    (delay : Nat) : Prop :=
  ∀ fuel, add_members_to_group env group phones delay 0 0 fuel = none

/-! ## Invariant lemmas about the addition loop -/

theorem insertIdx_drop_succ {α : Type} (a : α) :
    ∀ (i : Nat) (l : List α), i ≤ l.length →
      (l.insertIdx i a).drop (i + 1) = l.drop i
  | 0, l, _ => by simp
  | i + 1, [], h => by simp at h
  | i + 1, x :: xs, h => by
      rw [List.insertIdx_succ_cons]
      simpa using insertIdx_drop_succ a i xs (by simpa using h)

theorem addAux_count (env : Env) (kind : GroupKind) (delay : Nat) :
    ∀ fuel phones i st st', addAux env kind delay fuel phones i st = some st' →
      st'.aborted = false → ∀ p : String,
      st'.succ.count p + (st'.failed.map Failure.phone).count p
        = st.succ.count p + (st.failed.map Failure.phone).count p
          + (phones.drop i).count p := by
  intro fuel
  induction fuel with
  | zero =>
      intro phones i st st' hrun hab p
      simp only [addAux] at hrun
      split at hrun
      · exact absurd hrun (by simp)
      · next hge =>
          obtain rfl : st = st' := by simpa using hrun
          simp [List.drop_eq_nil_of_le (Nat.le_of_not_lt hge)]
  | succ fuel ih =>
      intro phones i st st' hrun hab p
      simp only [addAux] at hrun
      split at hrun
      case isFalse hge =>
          obtain rfl : st = st' := by simpa using hrun
          simp [List.drop_eq_nil_of_le (Nat.le_of_not_lt hge)]
      case isTrue h =>
      rw [List.drop_eq_getElem_cons h]
      split at hrun
      case h_1 msg heq =>
          have := ih _ _ _ _ hrun hab p
          simp only [List.map_append, List.count_append] at this ⊢
          simp only [List.count_cons, List.count_nil, List.map_cons, List.map_nil] at this ⊢
          split_ifs at this ⊢ <;> simp_all <;> omega
      case h_2 heq =>
          have := ih _ _ _ _ hrun hab p
          simp only [List.map_append, List.count_append] at this ⊢
          simp only [List.count_cons, List.count_nil, List.map_cons, List.map_nil] at this ⊢
          split_ifs at this ⊢ <;> simp_all <;> omega
      case h_3 heq =>
      split at hrun
      case h_1 =>
          have := ih _ _ _ _ hrun hab p
          simp only [List.map_append, List.count_append] at this ⊢
          simp only [List.count_cons, List.count_nil, List.map_cons, List.map_nil] at this ⊢
          split_ifs at this ⊢ <;> simp_all <;> omega
      all_goals
        split at hrun <;>
          first
            | (obtain rfl : _ = st' := by simpa using hrun
               simp at hab)
            | (have hrec := ih _ _ _ _ hrun hab p
               rw [insertIdx_drop_succ _ _ _ (Nat.le_of_lt h),
                   List.drop_eq_getElem_cons h] at hrec
               simp only [List.count_cons] at hrec ⊢
               split_ifs at hrec ⊢ <;> simp_all <;> omega)
            | (have hrec := ih _ _ _ _ hrun hab p
               simp only [List.map_append, List.count_append, List.count_cons,
                 List.count_nil, List.map_cons, List.map_nil] at hrec ⊢
               split_ifs at hrec ⊢ <;> simp_all <;> omega)


/-- Candidates that do not occur in the remaining worklist are never added to
any report list or to the call log by the rest of the loop. -/
theorem addAux_untouched (env : Env) (kind : GroupKind) (delay : Nat) :
    ∀ fuel phones i st st' (p : String),
      addAux env kind delay fuel phones i st = some st' →
      p ∉ phones.drop i →
      st'.succ.count p = st.succ.count p ∧
      (st'.failed.map Failure.phone).count p = (st.failed.map Failure.phone).count p ∧
      st'.calls.count p = st.calls.count p := by
  intro fuel
  induction fuel with
  | zero =>
      intro phones i st st' p hrun hnot
      simp only [addAux] at hrun
      split at hrun
      · exact absurd hrun (by simp)
      · obtain rfl : st = st' := by simpa using hrun
        exact ⟨rfl, rfl, rfl⟩
  | succ fuel ih =>
      intro phones i st st' p hrun hnot
      simp only [addAux] at hrun
      split at hrun
      case isFalse hge =>
          obtain rfl : st = st' := by simpa using hrun
          exact ⟨rfl, rfl, rfl⟩
      case isTrue h =>
      have hp : phones[i] ≠ p := by
        intro e
        exact hnot (by rw [List.drop_eq_getElem_cons h, ← e]; exact List.mem_cons_self _ _)
      have hnot' : p ∉ phones.drop (i + 1) := fun hx =>
        hnot (by rw [List.drop_eq_getElem_cons h]; exact List.mem_cons_of_mem _ hx)
      have hnotIns : p ∉ (phones.insertIdx i (phones.get ⟨i, h⟩)).drop (i + 1) := by
        rw [insertIdx_drop_succ _ _ _ (Nat.le_of_lt h)]; exact hnot
      split at hrun
      case h_1 msg heq =>
          obtain ⟨h1, h2, h3⟩ := ih _ _ _ _ _ hrun hnot'
          simp only [List.map_append, List.count_append, List.map_cons, List.map_nil,
            List.count_cons, List.count_nil, List.get_eq_getElem, hp] at h1 h2 h3
          simp_all
      case h_2 heq =>
          obtain ⟨h1, h2, h3⟩ := ih _ _ _ _ _ hrun hnot'
          simp only [List.map_append, List.count_append, List.map_cons, List.map_nil,
            List.count_cons, List.count_nil, List.get_eq_getElem, hp] at h1 h2 h3
          simp_all
      case h_3 heq =>
      split at hrun
      case h_1 =>
          obtain ⟨h1, h2, h3⟩ := ih _ _ _ _ _ hrun hnot'
          simp only [List.map_append, List.count_append, List.map_cons, List.map_nil,
            List.count_cons, List.count_nil, List.get_eq_getElem, hp] at h1 h2 h3
          simp_all
      all_goals
        split at hrun <;>
          first
            | (obtain rfl : _ = st' := by simpa using hrun
               refine ⟨?_, ?_, ?_⟩ <;>
                 simp [List.map_append, List.count_append, List.count_cons,
                   List.get_eq_getElem, hp])
            | (obtain ⟨h1, h2, h3⟩ := ih _ _ _ _ _ hrun hnotIns
               simp only [List.map_append, List.count_append, List.map_cons, List.map_nil,
                 List.count_cons, List.count_nil, List.get_eq_getElem, hp] at h1 h2 h3
               simp_all)
            | (obtain ⟨h1, h2, h3⟩ := ih _ _ _ _ _ hrun hnot'
               simp only [List.map_append, List.count_append, List.map_cons, List.map_nil,
                 List.count_cons, List.count_nil, List.get_eq_getElem, hp] at h1 h2 h3
               simp_all)

/-- If from some point on the platform never answers with a flood wait, the
loop terminates on any fuel of at least the remaining work plus the remaining
flood allowance. -/
theorem addAux_total (env : Env) (kind : GroupKind) (delay : Nat) (N : Nat)
    (hN : ∀ n, N ≤ n → ∀ w, env.add n ≠ .flood w) :
    ∀ fuel phones i st, phones.length - i + (N - st.ac) ≤ fuel →
      (addAux env kind delay fuel phones i st).isSome := by
  intro fuel
  induction fuel with
  | zero =>
      intro phones i st hle
      simp only [addAux]
      split
      · omega
      · simp
  | succ fuel ih =>
      intro phones i st hle
      simp only [addAux]
      split
      case isFalse => simp
      case isTrue h =>
      cases hres : env.resolve st.rc with
      | notFound msg => exact ih _ _ _ (by simp; omega)
      | notUser => exact ih _ _ _ (by simp; omega)
      | ok =>
        cases kind with
        | other => exact ih _ _ _ (by simp; omega)
        | channel =>
          cases hadd : env.add st.ac with
          | ok => exact ih _ _ _ (by simp; omega)
          | flood w =>
              have hlt : st.ac < N := by
                by_contra hge
                exact hN st.ac (by omega) w hadd
              refine ih _ _ _ ?_
              rw [List.length_insertIdx _ _ (Nat.le_of_lt h)]
              simp
              omega
          | already => exact ih _ _ _ (by simp; omega)
          | privacy => exact ih _ _ _ (by simp; omega)
          | peerFlood => simp
          | adminRequired => simp
          | generic msg => exact ih _ _ _ (by simp; omega)
        | chat =>
          cases hadd : env.add st.ac with
          | ok => exact ih _ _ _ (by simp; omega)
          | flood w =>
              have hlt : st.ac < N := by
                by_contra hge
                exact hN st.ac (by omega) w hadd
              refine ih _ _ _ ?_
              rw [List.length_insertIdx _ _ (Nat.le_of_lt h)]
              simp
              omega
          | already => exact ih _ _ _ (by simp; omega)
          | privacy => exact ih _ _ _ (by simp; omega)
          | peerFlood => simp
          | adminRequired => simp
          | generic msg => exact ih _ _ _ (by simp; omega)

/-- If the platform answers every add request with a flood wait, the loop never
terminates: every fuel is exhausted (the retry re-inserts the current phone, so
the worklist never shrinks). -/
theorem addAux_flood_diverges (env : Env) (kind : GroupKind) (delay : Nat)
    (hres : ∀ n, env.resolve n = .ok)
    (hadd : ∀ n, ∃ w, env.add n = .flood w)
    (hkind : kind ≠ .other) :
    ∀ fuel phones i st, i < phones.length →
      addAux env kind delay fuel phones i st = none := by
  intro fuel
  induction fuel with
  | zero =>
      intro phones i st h
      simp [addAux, h]
  | succ fuel ih =>
      intro phones i st h
      obtain ⟨w, hw⟩ := hadd st.ac
      simp only [addAux, dif_pos h, hres, hw]
      cases kind with
      | other => exact absurd rfl hkind
      | channel =>
          exact ih _ _ _ (by rw [List.length_insertIdx _ _ (Nat.le_of_lt h)]; omega)
      | chat =>
          exact ih _ _ _ (by rw [List.length_insertIdx _ _ (Nat.le_of_lt h)]; omega)


/-! ## Lemmas about the chunk scheduler and the helper functions -/

theorem pyChunks_flatten (c : Nat) : ∀ l : List String, (pyChunks (c + 1) l).flatten = l
  | [] => by simp [pyChunks]
  | x :: xs => by
      rw [pyChunks]
      simp only [List.flatten_cons]
      rw [pyChunks_flatten c ((x :: xs).drop (c + 1))]
      exact List.take_append_drop _ _
termination_by l => l.length
decreasing_by simp; omega

theorem pyChunks_length (c : Nat) : ∀ l : List String,
    (pyChunks (c + 1) l).length = (l.length + c) / (c + 1)
  | [] => by
      simp only [pyChunks, List.length_nil, Nat.zero_add]
      exact (Nat.div_eq_of_lt (by omega)).symm
  | x :: xs => by
      rw [pyChunks]
      simp only [List.length_cons]
      rw [pyChunks_length c ((x :: xs).drop (c + 1))]
      rw [List.length_drop]
      simp only [List.length_cons]
      rcases Nat.lt_or_ge xs.length c with hlt | hge
      · have h0 : xs.length + 1 - (c + 1) = 0 := by omega
        rw [h0, Nat.div_eq_of_lt (by omega : 0 + c < c + 1), eq_comm]
        apply Nat.div_eq_of_lt_le <;> omega
      · have h0 : xs.length + 1 - (c + 1) + c = xs.length := by omega
        rw [h0]
        conv_rhs => rw [Nat.div_eq_sub_div (Nat.succ_pos c) (by omega)]
        simp only [Nat.succ_eq_add_one]
        have h1 : xs.length + 1 + c - (c + 1) = xs.length := by omega
        rw [h1]
termination_by l => l.length
decreasing_by simp; omega

theorem pyChunks_dropLast_length (c : Nat) : ∀ l : List String,
    ∀ ch ∈ (pyChunks (c + 1) l).dropLast, ch.length = c + 1
  | [] => by simp [pyChunks]
  | x :: xs => by
      intro ch hch
      rw [pyChunks] at hch
      rcases hrest : pyChunks (c + 1) ((x :: xs).drop (c + 1)) with _ | ⟨y, ys⟩
      · rw [hrest] at hch
        simp at hch
      · rw [hrest] at hch
        rw [List.dropLast_cons_of_ne_nil (by simp)] at hch
        rcases List.mem_cons.mp hch with rfl | hch2
        · have hne : (x :: xs).drop (c + 1) ≠ [] := by
            intro hnil
            rw [hnil] at hrest
            simp [pyChunks] at hrest
          have hx : c + 1 ≤ (x :: xs).length := by
            have hpos := List.length_pos.mpr hne
            rw [List.length_drop] at hpos
            omega
          simp only [List.length_take, List.length_cons] at hx ⊢
          omega
        · have hsub := pyChunks_dropLast_length c ((x :: xs).drop (c + 1)) ch
          rw [hrest] at hsub
          exact hsub hch2
termination_by l => l.length
decreasing_by simp; omega


theorem get_user_groups_foldl : ∀ (ds : List Dialog) (acc : List GroupInfo),
    ds.foldl
      (fun groups d =>
        if d.isGroup || d.isChannel then groups ++ [dialogInfo d] else groups)
      acc
      = acc ++ (ds.filter fun d => d.isGroup || d.isChannel).map dialogInfo
  | [], acc => by simp
  | d :: ds, acc => by
      simp only [List.foldl_cons, List.filter_cons]
      by_cases h : (d.isGroup || d.isChannel) = true
      · simp only [if_pos h]
        rw [get_user_groups_foldl ds (acc ++ [dialogInfo d])]
        simp
      · simp only [if_neg h]
        rw [get_user_groups_foldl ds acc]

theorem readPhoneLines_foldl : ∀ (lines : List String) (acc : List String),
    lines.foldl
      (fun acc rawLine =>
        let line := rawLine.trim
        if line ≠ "" ∧ ¬ line.startsWith "#" then acc ++ [line] else acc)
      acc
      = acc ++ (lines.map String.trim).filter
          (fun l => !(l == "") && !(l.startsWith "#"))
  | [], acc => by simp
  | rawLine :: lines, acc => by
      by_cases h : rawLine.trim ≠ "" ∧ ¬ rawLine.trim.startsWith "#"
      · simp only [List.foldl_cons, List.map_cons, List.filter_cons]
        rw [if_pos h, readPhoneLines_foldl lines (acc ++ [rawLine.trim])]
        have hb : (!(rawLine.trim == "") && !(rawLine.trim.startsWith "#")) = true := by
          obtain ⟨h1, h2⟩ := h
          simp [h1, h2]
        rw [hb]
        simp
      · simp only [List.foldl_cons, List.map_cons, List.filter_cons]
        rw [if_neg h, readPhoneLines_foldl lines acc]
        have hb : (!(rawLine.trim == "") && !(rawLine.trim.startsWith "#")) = false := by
          rcases Decidable.not_and_iff_or_not.mp h with h1 | h2
          · simp at h1
            simp [h1]
          · simp at h2
            simp [h2]
        rw [hb]
        simp


theorem foldl_append_eq_flatten {α β : Type} (g : α → List β) :
    ∀ (files : List α) (acc : List β),
      files.foldl (fun acc f => acc ++ g f) acc = acc ++ (files.map g).flatten
  | [], acc => by simp
  | f :: fs, acc => by
      simp [foldl_append_eq_flatten g fs (acc ++ g f)]


/-- One loop iteration whose add request succeeds: the candidate joins the
success list and the call log, the per-request delay is slept, and the loop
advances. -/
theorem addAux_step_ok (env : Env) (kind : GroupKind) (delay fuel : Nat)
    (phones : List String) (i : Nat) (st : RunState)
    (hkind : kind ≠ .other) (h : i < phones.length)
    (hres : env.resolve st.rc = .ok) (hadd : env.add st.ac = .ok) :
    addAux env kind delay (fuel + 1) phones i st
      = addAux env kind delay fuel phones (i + 1)
          { st with succ := st.succ ++ [phones.get ⟨i, h⟩],
                    calls := st.calls ++ [phones.get ⟨i, h⟩],
                    slept := st.slept + delay,
                    rc := st.rc + 1, ac := st.ac + 1 } := by
  cases kind <;> simp_all [addAux, dif_pos h]

/-- One loop iteration whose add request is rate-limited: the wait is slept,
the candidate is re-inserted at the current index, and the loop advances to
the re-inserted copy. -/
theorem addAux_step_flood (env : Env) (kind : GroupKind) (delay w fuel : Nat)
    (phones : List String) (i : Nat) (st : RunState)
    (hkind : kind ≠ .other) (h : i < phones.length)
    (hres : env.resolve st.rc = .ok) (hadd : env.add st.ac = .flood w) :
    addAux env kind delay (fuel + 1) phones i st
      = addAux env kind delay fuel (phones.insertIdx i (phones.get ⟨i, h⟩)) (i + 1)
          { st with calls := st.calls ++ [phones.get ⟨i, h⟩],
                    slept := st.slept + w,
                    rc := st.rc + 1, ac := st.ac + 1 } := by
  cases kind <;> simp_all [addAux, dif_pos h]

/-- A whole segment of the loop in which every remaining add request succeeds:
all remaining candidates are added in order, each followed by the per-request
delay. -/
theorem addAux_all_ok (env : Env) (kind : GroupKind) (delay : Nat)
    (hres : ∀ n, env.resolve n = .ok) (hkind : kind ≠ .other) :
    ∀ fuel phones i st,
      (∀ k, st.ac ≤ k → k < st.ac + (phones.length - i) → env.add k = .ok) →
      phones.length - i ≤ fuel →
      addAux env kind delay fuel phones i st
        = some { st with
            succ := st.succ ++ phones.drop i,
            calls := st.calls ++ phones.drop i,
            slept := st.slept + (phones.length - i) * delay,
            rc := st.rc + (phones.length - i),
            ac := st.ac + (phones.length - i) } := by
  intro fuel
  induction fuel with
  | zero =>
      intro phones i st hok hle
      have hge : ¬ i < phones.length := by omega
      have hdrop : phones.drop i = [] := List.drop_eq_nil_of_le (by omega)
      have h0 : phones.length - i = 0 := by omega
      simp [addAux, hge, hdrop, h0]
  | succ fuel ih =>
      intro phones i st hok hle
      by_cases h : i < phones.length
      · rw [addAux_step_ok env kind delay fuel phones i st hkind h (hres st.rc)
            (hok st.ac (Nat.le_refl _) (by omega))]
        rw [ih phones (i + 1) _ (by intro k hk1 hk2; exact hok k (by simp at hk1; omega) (by simp at hk2 ⊢; omega)) (by omega)]
        have hdrop : phones.drop i = phones.get ⟨i, h⟩ :: phones.drop (i + 1) := by
          rw [List.drop_eq_getElem_cons h]
          simp
        have hlen : phones.length - i = (phones.length - (i + 1)) + 1 := by omega
        simp only [Option.some.injEq]
        rw [hdrop, hlen]
        simp [Nat.succ_mul, Nat.add_mul, Nat.mul_add]
        constructor
        · omega
        · omega
      · have hdrop : phones.drop i = [] := List.drop_eq_nil_of_le (by omega)
        have h0 : phones.length - i = 0 := by omega
        simp [addAux, h, hdrop, h0]

/-- The spec scenario evaluated symbolically in the per-request delay R and the
inter-chunk delay D: all 12 candidates succeed, the candidate at global index 6
is called twice (one rate-limited attempt, one retry), and the total suspension
is 12R + 10 + 2D. -/
theorem scenario_run (R D : Nat) :
    batch_add_members envScenario (some .chat) phones12 5 R D 20
      = some ⟨phones12, [],
          ["p0", "p1", "p2", "p3", "p4", "p5", "p6", "p6", "p7", "p8",
           "p9", "p10", "p11"],
          12 * R + 10 + 2 * D, 13, 13, false⟩ := by
  have hres : ∀ n, envScenario.resolve n = .ok := fun _ => rfl
  have hkind : (GroupKind.chat ≠ .other) := by decide
  have hok0 : ∀ k, (0 : Nat) ≤ k →
      k < 0 + ((["p0", "p1", "p2", "p3", "p4"] : List String).length - 0) →
      envScenario.add k = .ok := by
    intro k h1 h2
    simp only [List.length_cons, List.length_nil] at h2
    have hk : k ≠ 6 := by omega
    simp [envScenario, hk]
  have hrun0 : add_members_to_group envScenario (some .chat)
      ["p0", "p1", "p2", "p3", "p4"] R 0 0 20
      = some ⟨["p0", "p1", "p2", "p3", "p4"], [],
              ["p0", "p1", "p2", "p3", "p4"], 5 * R, 5, 5, false⟩ := by
    simp only [add_members_to_group]
    rw [addAux_all_ok envScenario .chat R hres hkind 20 _ 0 _ hok0 (by decide)]
    simp
  have hok2 : ∀ k, (7 : Nat) ≤ k →
      k < 7 + ((["p5", "p6", "p6", "p7", "p8", "p9"] : List String).length - 2) →
      envScenario.add k = .ok := by
    intro k h1 h2
    simp only [List.length_cons, List.length_nil] at h2
    have hk : k ≠ 6 := by omega
    simp [envScenario, hk]
  have hrun1 : add_members_to_group envScenario (some .chat)
      ["p5", "p6", "p7", "p8", "p9"] R 5 5 20
      = some ⟨["p5", "p6", "p7", "p8", "p9"], [],
              ["p5", "p6", "p6", "p7", "p8", "p9"], 5 * R + 10, 11, 11, false⟩ := by
    simp only [add_members_to_group]
    have t1 := addAux_step_ok envScenario .chat R 19 ["p5", "p6", "p7", "p8", "p9"] 0
      ⟨[], [], [], 0, 5, 5, false⟩ hkind (by decide) rfl rfl
    rw [t1]
    norm_num [List.get_cons_zero, List.get_cons_succ]
    have t2 := addAux_step_flood envScenario .chat R 10 18 ["p5", "p6", "p7", "p8", "p9"] 1
      ⟨["p5"], [], ["p5"], R, 6, 6, false⟩ hkind (by decide) rfl rfl
    rw [t2]
    norm_num [List.get_cons_zero, List.get_cons_succ, List.insertIdx_succ_cons,
      List.insertIdx_zero]
    have t3 := addAux_all_ok envScenario .chat R hres hkind 18
      ["p5", "p6", "p6", "p7", "p8", "p9"] 2
      ⟨["p5"], [], ["p5", "p6"], R + 10, 7, 7, false⟩ hok2 (by decide)
    rw [t3]
    simp
    omega
  have hok3 : ∀ k, (11 : Nat) ≤ k →
      k < 11 + ((["p10", "p11"] : List String).length - 0) →
      envScenario.add k = .ok := by
    intro k h1 h2
    simp only [List.length_cons, List.length_nil] at h2
    have hk : k ≠ 6 := by omega
    simp [envScenario, hk]
  have hrun2 : add_members_to_group envScenario (some .chat)
      ["p10", "p11"] R 11 11 20
      = some ⟨["p10", "p11"], [], ["p10", "p11"], 2 * R, 13, 13, false⟩ := by
    simp only [add_members_to_group]
    rw [addAux_all_ok envScenario .chat R hres hkind 20 _ 0 _ hok3 (by decide)]
    simp
  have hchunks : pyChunks 5 phones12
      = [["p0", "p1", "p2", "p3", "p4"], ["p5", "p6", "p7", "p8", "p9"],
         ["p10", "p11"]] := by
    simp [pyChunks, phones12]
  simp only [batch_add_members]
  rw [hchunks]
  simp only [batchAux, hrun0, hrun1, hrun2]
  simp [phones12]
  omega

/-! ## The claims -/

/-- C10: with a `None` group entity, `add_members_to_group` returns an empty
success list and a failure list with exactly one "Group not found" entry per
input candidate, in input order, without issuing any platform request (no call
is logged and neither request counter advances). -/
theorem claim_C10 (env : Env) (phones : List String) (delay rc ac fuel : Nat) :
    add_members_to_group env none phones delay rc ac fuel
      = some { succ := [], failed := phones.map fun p => ⟨p, "Group not found"⟩,
               calls := [], slept := 0, rc := rc, ac := ac, aborted := false } :=
  rfl

/-- C9: the candidate-file reader strips each line, ignores blank lines and
lines beginning with "#", and appends every other stripped line as exactly one
candidate, preserving line order within the file; files contribute in listing
order. -/
theorem claim_C9 (lines : List String) (files : List (List String)) :
    readPhoneLines lines
      = (lines.map String.trim).filter (fun l => !(l == "") && !(l.startsWith "#"))
    ∧ read_phone_numbers_from_directory files = (files.map readPhoneLines).flatten := by
  constructor
  · simpa [readPhoneLines] using readPhoneLines_foldl lines []
  · simpa [read_phone_numbers_from_directory]
      using foldl_append_eq_flatten readPhoneLines files []

/-- C8 counterexample: two group dialogs with the identical title "Team"
(hence equal normalized titles), the first without a public handle and the
second with one.  `get_user_groups` keeps BOTH: the output holds two
descriptors for that title, refuting that exactly one (the one with the
handle) survives. -/
theorem claim_C8_counterexample :
    get_user_groups
        [⟨0, "Team", none, true, false, none⟩,
         ⟨1, "Team", some "team", true, false, none⟩]
      = [⟨0, "Team", none, "Group", none⟩,
         ⟨1, "Team", some "team", "Group", none⟩]
    ∧ (get_user_groups
        [⟨0, "Team", none, true, false, none⟩,
         ⟨1, "Team", some "team", true, false, none⟩]).length = 2 :=
  ⟨rfl, rfl⟩

/-- C8 (amended): `get_user_groups` performs no deduplication: it emits one
descriptor for EVERY group/channel dialog, in input order, so two descriptors
with equal normalized titles — one with a handle, one without — BOTH appear in
the output regardless of their relative order. -/
theorem claim_C8 (dialogs : List Dialog) :
    get_user_groups dialogs
      = (dialogs.filter fun d => d.isGroup || d.isChannel).map dialogInfo := by
  simpa [get_user_groups] using get_user_groups_foldl dialogs []

/-- C4: for every chunk size C ≥ 1 and candidate list, the scheduler produces
exactly ⌈N/C⌉ = (N + C - 1) / C chunks, every chunk except possibly the last
has length exactly C, and the chunks concatenate in order to the original
list. -/
theorem claim_C4 (c : Nat) (hc : 1 ≤ c) (l : List String) :
    (pyChunks c l).length = (l.length + c - 1) / c
    ∧ (∀ ch ∈ (pyChunks c l).dropLast, ch.length = c)
    ∧ (pyChunks c l).flatten = l := by
  obtain ⟨c', rfl⟩ : ∃ c', c = c' + 1 := ⟨c - 1, by omega⟩
  refine ⟨?_, pyChunks_dropLast_length c' l, pyChunks_flatten c' l⟩
  rw [pyChunks_length c' l]
  have h1 : l.length + (c' + 1) - 1 = l.length + c' := by omega
  rw [h1]

/-- Witness for C4: chunk size 2 on a five-element list. -/
theorem claim_C4_witness :
    (pyChunks 2 ["a", "b", "c", "d", "e"]).length
        = ((["a", "b", "c", "d", "e"] : List String).length + 2 - 1) / 2
    ∧ (∀ ch ∈ (pyChunks 2 ["a", "b", "c", "d", "e"]).dropLast, ch.length = 2)
    ∧ (pyChunks 2 ["a", "b", "c", "d", "e"]).flatten = ["a", "b", "c", "d", "e"] :=
  claim_C4 2 (by omega) ["a", "b", "c", "d", "e"]

/-- C3: when `add_members_to_group` completes without a fatal abort, every
input candidate is accounted for in the two report lists together exactly as
often as it occurs in the input; for duplicate-free input every candidate
therefore appears in exactly one of the success and failure lists — never in
both and never omitted. -/
theorem claim_C3 (env : Env) (group : Option GroupKind) (phones : List String)
    (delay rc ac fuel : Nat) (st' : RunState)
    (hrun : add_members_to_group env group phones delay rc ac fuel = some st')
    (hab : st'.aborted = false) :
    (∀ p, st'.succ.count p + (st'.failed.map Failure.phone).count p
        = phones.count p)
    ∧ (phones.Nodup → ∀ p ∈ phones,
        (p ∈ st'.succ ∧ p ∉ st'.failed.map Failure.phone)
        ∨ (p ∉ st'.succ ∧ p ∈ st'.failed.map Failure.phone)) := by
  have hcount : ∀ p, st'.succ.count p + (st'.failed.map Failure.phone).count p
      = phones.count p := by
    cases group with
    | none =>
        obtain rfl : _ = st' := by simpa [add_members_to_group] using hrun
        intro p
        simp [List.map_map, Function.comp_def]
    | some kind =>
        intro p
        have h := addAux_count env kind delay fuel phones 0 _ st' hrun hab p
        simpa using h
  refine ⟨hcount, fun hnd p hp => ?_⟩
  have h1 : phones.count p = 1 := List.count_eq_one_of_mem hnd hp
  have h2 := hcount p
  rw [h1] at h2
  rcases Nat.eq_zero_or_pos (st'.succ.count p) with h0 | hpos
  · right
    refine ⟨fun hm => ?_, ?_⟩
    · have := List.count_pos_iff.mpr hm
      omega
    · exact List.count_pos_iff.mp (by omega)
  · left
    refine ⟨List.count_pos_iff.mp hpos, fun hm => ?_⟩
    have := List.count_pos_iff.mpr hm
    omega

/-- Witness for C3: a completed two-candidate run over an always-successful
platform. -/
theorem claim_C3_witness :
    (∀ p, List.count p (RunState.succ ⟨["a", "b"], [], ["a", "b"], 2, 2, 2, false⟩)
        + List.count p ((RunState.failed ⟨["a", "b"], [], ["a", "b"], 2, 2, 2, false⟩).map Failure.phone)
        = List.count p ["a", "b"])
    ∧ ((["a", "b"] : List String).Nodup → ∀ p ∈ (["a", "b"] : List String),
        (p ∈ RunState.succ ⟨["a", "b"], [], ["a", "b"], 2, 2, 2, false⟩
          ∧ p ∉ (RunState.failed ⟨["a", "b"], [], ["a", "b"], 2, 2, 2, false⟩).map Failure.phone)
        ∨ (p ∉ RunState.succ ⟨["a", "b"], [], ["a", "b"], 2, 2, 2, false⟩
          ∧ p ∈ (RunState.failed ⟨["a", "b"], [], ["a", "b"], 2, 2, 2, false⟩).map Failure.phone)) :=
  claim_C3 envAllOk (some .chat) ["a", "b"] 1 0 0 2
    ⟨["a", "b"], [], ["a", "b"], 2, 2, 2, false⟩ (by rfl) rfl


/-- C1 (amended): when the add request for the candidate at position i of the
current chunk raises `PeerFloodError` or `ChatAdminRequiredError`, that
candidate is recorded as a terminal failure and the loop returns at once with
the abort flag set — no candidate at a position greater than i of this chunk
reaches either report list.  The abort covers only the current chunk: the
chunk loop of `batch_add_members` never inspects it and continues with the
remaining chunks (see the counterexample). -/
theorem claim_C1 (env : Env) (kind : GroupKind) (delay fuel : Nat)
    (phones : List String) (i : Nat) (st : RunState)
    (hkind : kind ≠ .other) (h : i < phones.length)
    (hres : env.resolve st.rc = .ok)
    (hadd : env.add st.ac = .peerFlood ∨ env.add st.ac = .adminRequired) :
    addAux env kind delay (fuel + 1) phones i st
      = some { st with
          failed := st.failed ++ [⟨phones.get ⟨i, h⟩,
            if env.add st.ac = .peerFlood then "Peer flood - too many requests"
            else "Admin rights required"⟩],
          calls := st.calls ++ [phones.get ⟨i, h⟩],
          rc := st.rc + 1, ac := st.ac + 1, aborted := true } := by
  rcases hadd with hw | hw <;> cases kind <;> simp_all [addAux, dif_pos h]

/-- Witness for C1: `PeerFloodError` on the first candidate of a two-candidate
chunk returns immediately with only that failure recorded. -/
theorem claim_C1_witness :
    addAux envPeerFloodFirst .chat 0 (3 + 1) ["a", "b"] 0
        ⟨[], [], [], 0, 0, 0, false⟩
      = some ⟨[], [⟨"a", "Peer flood - too many requests"⟩], ["a"], 0, 1, 1, true⟩ :=
  claim_C1 envPeerFloodFirst .chat 0 3 ["a", "b"] 0 ⟨[], [], [], 0, 0, 0, false⟩
    (by decide) (by decide) rfl (Or.inl rfl)

/-- C1 counterexample: chunk size 1 over two candidates, `PeerFloodError` on
the very first add request (the candidate at 0-based index 0 of a run of 2).
The candidate at index 1 > 0 still appears in the success list of the final
report: the abort covered only its chunk, not the remaining run. -/
theorem claim_C1_counterexample :
    envPeerFloodFirst.add 0 = .peerFlood
    ∧ batch_add_members envPeerFloodFirst (some .chat) ["a", "b"] 1 0 0 5
      = some ⟨["b"], [⟨"a", "Peer flood - too many requests"⟩], ["a", "b"],
              0, 2, 2, true⟩ := by
  refine ⟨rfl, ?_⟩
  simp [batch_add_members, pyChunks, batchAux, add_members_to_group, addAux,
    envPeerFloodFirst]

/-- C2: a candidate whose add request is rate-limited with advised wait w
makes the engine sleep w seconds and re-attempt exactly that candidate next
(the re-inserted worklist holds the same phone at the next position, before
any other candidate), and — provided the remaining run completes without a
fatal abort — that candidate appears in the final report exactly once. -/
theorem claim_C2 (env : Env) (kind : GroupKind) (delay w fuel : Nat)
    (phones : List String) (i : Nat) (st : RunState)
    (hkind : kind ≠ .other) (h : i < phones.length)
    (hres : env.resolve st.rc = .ok) (hadd : env.add st.ac = .flood w)
    (hfresh : st.succ.count (phones.get ⟨i, h⟩)
        + (st.failed.map Failure.phone).count (phones.get ⟨i, h⟩) = 0)
    (honce : (phones.drop i).count (phones.get ⟨i, h⟩) = 1) :
    addAux env kind delay (fuel + 1) phones i st
      = addAux env kind delay fuel (phones.insertIdx i (phones.get ⟨i, h⟩)) (i + 1)
          { st with calls := st.calls ++ [phones.get ⟨i, h⟩],
                    slept := st.slept + w, rc := st.rc + 1, ac := st.ac + 1 }
    ∧ ((phones.insertIdx i (phones.get ⟨i, h⟩)).drop (i + 1)).head?
        = some (phones.get ⟨i, h⟩)
    ∧ (∀ st', addAux env kind delay fuel
          (phones.insertIdx i (phones.get ⟨i, h⟩)) (i + 1)
          { st with calls := st.calls ++ [phones.get ⟨i, h⟩],
                    slept := st.slept + w, rc := st.rc + 1, ac := st.ac + 1 }
          = some st' →
        st'.aborted = false →
        st'.succ.count (phones.get ⟨i, h⟩)
          + (st'.failed.map Failure.phone).count (phones.get ⟨i, h⟩) = 1) := by
  refine ⟨?_, ?_, ?_⟩
  · cases kind <;> simp_all [addAux, dif_pos h]
  · rw [insertIdx_drop_succ _ _ _ (Nat.le_of_lt h), List.drop_eq_getElem_cons h]
    simp
  · intro st' hrun hab
    have hc := addAux_count env kind delay fuel _ _ _ _ hrun hab (phones.get ⟨i, h⟩)
    rw [insertIdx_drop_succ _ _ _ (Nat.le_of_lt h)] at hc
    dsimp only at hc
    omega

/-- Witness for C2: the first candidate of a two-candidate chunk is
rate-limited for 4 seconds, is re-attempted next, and lands in the report
exactly once. -/
theorem claim_C2_witness :
    addAux envFloodOnce .chat 2 (3 + 1) ["a", "b"] 0 ⟨[], [], [], 0, 0, 0, false⟩
      = addAux envFloodOnce .chat 2 3 (["a", "b"].insertIdx 0 "a") 1
          ⟨[], [], ["a"], 4, 1, 1, false⟩
    ∧ ((["a", "b"].insertIdx 0 "a").drop 1).head? = some "a"
    ∧ (∀ st', addAux envFloodOnce .chat 2 3 (["a", "b"].insertIdx 0 "a") 1
          ⟨[], [], ["a"], 4, 1, 1, false⟩ = some st' →
        st'.aborted = false →
        st'.succ.count "a" + (st'.failed.map Failure.phone).count "a" = 1) :=
  claim_C2 envFloodOnce .chat 2 4 3 ["a", "b"] 0 ⟨[], [], [], 0, 0, 0, false⟩
    (by decide) (by decide) rfl rfl (by decide) (by decide)

/-- C6 (amended): an already-a-member outcome adds the candidate to the
success list exactly once with exactly one logged invite/add call, the rest of
the run issues no further call for it (duplicate-free remainder assumed), and
NO delay at all follows the outcome — the updated state's slept time is
unchanged, because the source sleeps the per-request delay only after a fresh
successful add, not in the `UserAlreadyParticipantError` handler. -/
theorem claim_C6 (env : Env) (kind : GroupKind) (delay fuel : Nat)
    (phones : List String) (i : Nat) (st : RunState)
    (hkind : kind ≠ .other) (h : i < phones.length)
    (hres : env.resolve st.rc = .ok) (hadd : env.add st.ac = .already)
    (hnot : phones.get ⟨i, h⟩ ∉ phones.drop (i + 1)) :
    addAux env kind delay (fuel + 1) phones i st
      = addAux env kind delay fuel phones (i + 1)
          { st with succ := st.succ ++ [phones.get ⟨i, h⟩],
                    calls := st.calls ++ [phones.get ⟨i, h⟩],
                    rc := st.rc + 1, ac := st.ac + 1 }
    ∧ (∀ st', addAux env kind delay fuel phones (i + 1)
          { st with succ := st.succ ++ [phones.get ⟨i, h⟩],
                    calls := st.calls ++ [phones.get ⟨i, h⟩],
                    rc := st.rc + 1, ac := st.ac + 1 } = some st' →
        st'.succ.count (phones.get ⟨i, h⟩)
            = st.succ.count (phones.get ⟨i, h⟩) + 1
        ∧ st'.calls.count (phones.get ⟨i, h⟩)
            = st.calls.count (phones.get ⟨i, h⟩) + 1
        ∧ (st'.failed.map Failure.phone).count (phones.get ⟨i, h⟩)
            = (st.failed.map Failure.phone).count (phones.get ⟨i, h⟩)) := by
  refine ⟨?_, ?_⟩
  · cases kind <;> simp_all [addAux, dif_pos h]
  · intro st' hrun
    obtain ⟨h1, h2, h3⟩ :=
      addAux_untouched env kind delay fuel phones (i + 1) _ st' _ hrun hnot
    dsimp only at h1 h2 h3
    refine ⟨?_, ?_, ?_⟩
    · rw [h1]
      simp
    · rw [h3]
      simp
    · rw [h2]

/-- Witness for C6: a single already-member candidate with per-request delay 7
is counted once, called once, and the state after the step has slept 0. -/
theorem claim_C6_witness :
    addAux envAlready .chat 7 (2 + 1) ["a"] 0 ⟨[], [], [], 0, 0, 0, false⟩
      = addAux envAlready .chat 7 2 ["a"] 1 ⟨["a"], [], ["a"], 0, 1, 1, false⟩
    ∧ (∀ st', addAux envAlready .chat 7 2 ["a"] 1
          ⟨["a"], [], ["a"], 0, 1, 1, false⟩ = some st' →
        st'.succ.count "a" = List.count "a" [] + 1
        ∧ st'.calls.count "a" = List.count "a" [] + 1
        ∧ (st'.failed.map Failure.phone).count "a"
            = (List.map Failure.phone []).count "a") :=
  claim_C6 envAlready .chat 7 2 ["a"] 0 ⟨[], [], [], 0, 0, 0, false⟩
    (by decide) (by decide) rfl rfl (by decide)

/-- C6 counterexample: with per-request delay 7, a run whose single candidate
is already a member ends with total sleep 0, not 7 — no per-request delay
follows an already-member outcome, contrary to the claim that the standard
delay R follows it. -/
theorem claim_C6_counterexample :
    add_members_to_group envAlready (some .chat) ["a"] 7 0 0 3
      = some ⟨["a"], [], ["a"], 0, 1, 1, false⟩
    ∧ (0 : Nat) ≠ 7 :=
  ⟨rfl, by decide⟩

/-- C7 (amended): the engine never raises past its boundary and returns a
(possibly partial) result pair whenever the platform stops signalling
rate-limits from some request index N on; under rate-limiting that recurs
forever the source retries without bound and the call never returns (see the
counterexample). -/
theorem claim_C7 (env : Env) (group : Option GroupKind) (phones : List String)
    (delay rc ac N : Nat)
    (hN : ∀ n, N ≤ n → ∀ w, env.add n ≠ .flood w) :
    (add_members_to_group env group phones delay rc ac
        (phones.length + N)).isSome := by
  cases group with
  | none => simp [add_members_to_group]
  | some kind =>
      apply addAux_total env kind delay N hN
      omega

/-- Witness for C7: an always-successful platform returns a result. -/
theorem claim_C7_witness :
    (add_members_to_group envAllOk (some .chat) ["a"] 1 0 0
        ((["a"] : List String).length + 0)).isSome :=
  claim_C7 envAllOk (some .chat) ["a"] 1 0 0 0
    (by intro n _ w hw; simp [envAllOk] at hw)

/-- C7 counterexample: a platform that rate-limits every add request makes the
loop retry the same candidate forever: `add_members_to_group` exhausts every
fuel bound, i.e. the call never returns a result pair. -/
theorem claim_C7_counterexample :
    neverReturns envFloodForever (some .chat) ["a"] 0 := by
  intro fuel
  have h := addAux_flood_diverges envFloodForever .chat 0 (fun _ => rfl)
      (fun _ => ⟨1, rfl⟩) (by decide) fuel ["a"] 0
      ⟨[], [], [], 0, 0, 0, false⟩ (by decide)
  simpa [add_members_to_group] using h


/-- C5 (amended): in the 12-candidate, chunk-size-5 scenario where the
candidate at global index 6 is rate-limited once for 10 seconds and every
other attempt succeeds, the chunks have lengths [5, 5, 2], the final report
has 12 successes and 0 failures, and the total suspension is
12 × R + 10 + 2 × D — the per-request delay R is slept after every one of the
12 successful adds, including the last one of the run, not 11 times. -/
theorem claim_C5 (R D : Nat) :
    batch_add_members envScenario (some .chat) phones12 5 R D 20
      = some ⟨phones12, [],
          ["p0", "p1", "p2", "p3", "p4", "p5", "p6", "p6", "p7", "p8",
           "p9", "p10", "p11"],
          12 * R + 10 + 2 * D, 13, 13, false⟩
    ∧ (pyChunks 5 phones12).map List.length = [5, 5, 2] := by
  refine ⟨scenario_run R D, ?_⟩
  simp [pyChunks, phones12]

/-- C5 counterexample: instantiating the scenario at R = 1 and D = 100, the
total suspension of the run is 222 = 12 × 1 + 10 + 2 × 100, not
221 = 11 × 1 + 10 + 2 × 100 as the claimed formula 11 × R + 10 + 2 × D
computes. -/
theorem claim_C5_counterexample :
    (batch_add_members envScenario (some .chat) phones12 5 1 100 20).map
        RunState.slept = some 222
    ∧ (222 : Nat) ≠ 11 * 1 + 10 + 2 * 100 := by
  refine ⟨?_, by decide⟩
  rw [scenario_run 1 100]
  rfl

end TeleGroupPy
